import Mathlib

/-!
# mpi-hs: the enumerations of `c/include/mpihs.h` and the binding core around them

The only source file of the repository fragment is `c/include/mpihs.h`.  It
declares two C enumerations whose enumerators are initialised from constants of
`<mpi.h>`:

* `enum ComparisonResult { Identical = MPI_IDENT, Congruent = MPI_CONGRUENT,
  Similar = MPI_SIMILAR, Unequal = MPI_UNEQUAL }`
* `enum ThreadSupport { Single = MPI_THREAD_SINGLE, Funneled = MPI_THREAD_FUNNELED,
  Serialized = MPI_THREAD_SERIALIZED, Multiple = MPI_THREAD_MULTIPLE }`

`<mpi.h>` belongs to the MPI implementation, not to the repository, so its eight
constants are a parameter (`MpiH`) of the embedding.  The registry, oracle,
negotiator and ledger of the specification have no code in the fragment; they
are modelled from the specification and marked so.
-/

namespace MpiHs

/-! ## The header `mpihs.h` -/

/-- The eight constants of `<mpi.h>` that `mpihs.h` uses.  A C enumerator is an
`int`, so each constant is an integer.  The header fixes none of the values. -/
structure MpiH where
  MPI_IDENT : Int
  MPI_CONGRUENT : Int
  MPI_SIMILAR : Int
  MPI_UNEQUAL : Int
  MPI_THREAD_SINGLE : Int
  MPI_THREAD_FUNNELED : Int
  MPI_THREAD_SERIALIZED : Int
  MPI_THREAD_MULTIPLE : Int
deriving DecidableEq, Repr

/-- The values in MPICH's `mpi.h`: `#define MPI_IDENT 0`, `MPI_CONGRUENT 1`,
`MPI_SIMILAR 2`, `MPI_UNEQUAL 3`, and `#define MPI_THREAD_SINGLE 0`,
`MPI_THREAD_FUNNELED 1`, `MPI_THREAD_SERIALIZED 2`, `MPI_THREAD_MULTIPLE 3`.
Open MPI's `mpi.h` declares both families as anonymous enumerations in the same
order, `enum { MPI_IDENT, MPI_CONGRUENT, MPI_SIMILAR, MPI_UNEQUAL }` and
`enum { MPI_THREAD_SINGLE, MPI_THREAD_FUNNELED, MPI_THREAD_SERIALIZED,
MPI_THREAD_MULTIPLE }`, which gives the same eight values. -/
def MpiH.mpich : MpiH :=
  { MPI_IDENT := 0, MPI_CONGRUENT := 1, MPI_SIMILAR := 2, MPI_UNEQUAL := 3,
    MPI_THREAD_SINGLE := 0, MPI_THREAD_FUNNELED := 1,
    MPI_THREAD_SERIALIZED := 2, MPI_THREAD_MULTIPLE := 3 }

/-- The enumerators of `enum ComparisonResult` (`mpihs.h`, lines 6-11), in
declaration order. -/
inductive ComparisonResult where
  | Identical
  | Congruent
  | Similar
  | Unequal
deriving DecidableEq, Repr, Fintype

/-- The enumerators of `enum ThreadSupport` (`mpihs.h`, lines 13-18), in
declaration order. -/
inductive ThreadSupport where
  | Single
  | Funneled
  | Serialized
  | Multiple
deriving DecidableEq, Repr, Fintype

/-- The integer value of an enumerator of `ComparisonResult`: its initialiser in
`mpihs.h`. -/
def ComparisonResult.toInt (k : MpiH) : ComparisonResult → Int
  | .Identical => k.MPI_IDENT
  | .Congruent => k.MPI_CONGRUENT
  | .Similar => k.MPI_SIMILAR
  | .Unequal => k.MPI_UNEQUAL

/-- The integer value of an enumerator of `ThreadSupport`: its initialiser in
`mpihs.h`. -/
def ThreadSupport.toInt (k : MpiH) : ThreadSupport → Int
  | .Single => k.MPI_THREAD_SINGLE
  | .Funneled => k.MPI_THREAD_FUNNELED
  | .Serialized => k.MPI_THREAD_SERIALIZED
  | .Multiple => k.MPI_THREAD_MULTIPLE

/-- The four raw comparison codes of the runtime, in the order of `mpihs.h`. -/
def MpiH.comparisonCodes (k : MpiH) : List Int :=
  [k.MPI_IDENT, k.MPI_CONGRUENT, k.MPI_SIMILAR, k.MPI_UNEQUAL]

/-- The four raw thread-level codes of the runtime, in the order of `mpihs.h`. -/
def MpiH.threadCodes (k : MpiH) : List Int :=
  [k.MPI_THREAD_SINGLE, k.MPI_THREAD_FUNNELED, k.MPI_THREAD_SERIALIZED,
    k.MPI_THREAD_MULTIPLE]

/-- Reading a raw `int` as a `ComparisonResult`.  In C the conversion is a
value-preserving cast; the enumerator the value then denotes is the one declared
with that value, looked up here in declaration order.  A value that no
enumerator has denotes none. -/
def ComparisonResult.ofInt (k : MpiH) (raw : Int) : Option ComparisonResult :=
  if raw = k.MPI_IDENT then some .Identical
  else if raw = k.MPI_CONGRUENT then some .Congruent
  else if raw = k.MPI_SIMILAR then some .Similar
  else if raw = k.MPI_UNEQUAL then some .Unequal
  else none

/-- Reading a raw `int` as a `ThreadSupport`, as `ComparisonResult.ofInt`. -/
def ThreadSupport.ofInt (k : MpiH) (raw : Int) : Option ThreadSupport :=
  if raw = k.MPI_THREAD_SINGLE then some .Single
  else if raw = k.MPI_THREAD_FUNNELED then some .Funneled
  else if raw = k.MPI_THREAD_SERIALIZED then some .Serialized
  else if raw = k.MPI_THREAD_MULTIPLE then some .Multiple
  else none

/-- The thread-level constants of `<mpi.h>` increase from `MPI_THREAD_SINGLE` to
`MPI_THREAD_MULTIPLE`.  The MPI standard requires this of every implementation
("these values are monotonic"). -/
def MpiH.threadLevelsIncrease (k : MpiH) : Prop :=
  k.MPI_THREAD_SINGLE < k.MPI_THREAD_FUNNELED ∧
  k.MPI_THREAD_FUNNELED < k.MPI_THREAD_SERIALIZED ∧
  k.MPI_THREAD_SERIALIZED < k.MPI_THREAD_MULTIPLE

instance (k : MpiH) : Decidable k.threadLevelsIncrease := by
  unfold MpiH.threadLevelsIncrease; infer_instance

/-- The comparison constants of `<mpi.h>` increase from `MPI_IDENT` to
`MPI_UNEQUAL`, as they do in MPICH and in Open MPI. -/
def MpiH.comparisonCodesIncrease (k : MpiH) : Prop :=
  k.MPI_IDENT < k.MPI_CONGRUENT ∧
  k.MPI_CONGRUENT < k.MPI_SIMILAR ∧
  k.MPI_SIMILAR < k.MPI_UNEQUAL

instance (k : MpiH) : Decidable k.comparisonCodesIncrease := by
  unfold MpiH.comparisonCodesIncrease; infer_instance

/-- The comparison constants of `<mpi.h>` are pairwise distinct. -/
def MpiH.comparisonCodesDistinct (k : MpiH) : Prop :=
  k.comparisonCodes.Nodup

instance (k : MpiH) : Decidable k.comparisonCodesDistinct := by
  unfold MpiH.comparisonCodesDistinct; infer_instance

/-! ## The orders of the specification -/

/-- Specification order of the thread levels (data model, "ordered by
permissiveness"): the position in `Single < Funneled < Serialized < Multiple`. -/
def ThreadSupport.permissiveness : ThreadSupport → Nat
  | .Single => 0
  | .Funneled => 1
  | .Serialized => 2
  | .Multiple => 3

instance : LE ThreadSupport := ⟨fun a b => a.permissiveness ≤ b.permissiveness⟩

instance : LT ThreadSupport := ⟨fun a b => a.permissiveness < b.permissiveness⟩

instance (a b : ThreadSupport) : Decidable (a ≤ b) :=
  inferInstanceAs (Decidable (a.permissiveness ≤ b.permissiveness))

instance (a b : ThreadSupport) : Decidable (a < b) :=
  inferInstanceAs (Decidable (a.permissiveness < b.permissiveness))

/-- Specification order of the comparison results (data model, "total order for
at-least-as-strict-as queries"): the position, counted from the bottom, in
`Identical > Congruent > Similar > Unequal`. -/
def ComparisonResult.strictness : ComparisonResult → Nat
  | .Identical => 3
  | .Congruent => 2
  | .Similar => 1
  | .Unequal => 0

/-- The result `x` is at least as strict as `y` in the specification order. -/
def ComparisonResult.atLeastAsStrict (x y : ComparisonResult) : Prop :=
  y.strictness ≤ x.strictness

instance (x y : ComparisonResult) : Decidable (x.atLeastAsStrict y) :=
  inferInstanceAs (Decidable (y.strictness ≤ x.strictness))

/-! ## The binding core of the specification

None of the following has code in the repository fragment.  Each definition is
modelled from the wording of the specification; where the specification leaves
a case open the choice made is stated in the doc comment, and no theorem below
rests on such a choice unless it says so. -/

/-- Modelled from the spec: the error taxonomy of section 7; the fragment has no
error type. -/
inductive Error where
  | DuplicateHandle
  | StaleHandle
  | AlreadyReleased
  | AlreadyInitialized
  | NotInitialized
  | PendingOperationsRemain
  | UnknownRequest
  | AlreadyCompleted
  | Timeout
  | InitFailed
deriving DecidableEq, Repr

/-- Modelled from the spec: the three kinds of handle of the data model
("communicator, group, or request"). -/
inductive HandleKind where
  | communicator
  | group
  | request
deriving DecidableEq, Repr

/-- Modelled from the spec: an identifier owned by the runtime; the binding
layer never looks inside it. -/
abbrev NativeHandle := Nat

/-- Modelled from the spec: the "small integer token indexed into the registry"
of the design notes. -/
abbrev TrackedId := Nat

/-- Modelled from the spec: the ownership token of a buffer. -/
abbrev OwnershipToken := Nat

/-- Modelled from the spec: what the registry holds for a handle, "a non-owning
reference plus a liveness flag", and the kind given at registration. -/
structure HandleEntry where
  handle : NativeHandle
  kind : HandleKind
  live : Bool
deriving DecidableEq, Repr

/-- Modelled from the spec: the HandleRegistry of section 4.1, an arena of
entries indexed by tracked id.  `freed` logs the calls of the runtime's native
destructor (`comm_free`), the side effect of `release`. -/
structure HandleRegistry where
  entries : List HandleEntry
  freed : List NativeHandle
deriving DecidableEq, Repr

/-- Modelled from the spec: the registry of a fresh session. -/
def HandleRegistry.empty : HandleRegistry :=
  { entries := [], freed := [] }

/-- Modelled from the spec: `register(handle, kind) -> trackedId`; "registering
the same native handle twice fails with DuplicateHandle".  The sentence makes no
exception for a released handle, so every entry of the arena counts.  The new
entry is live and takes the next index of the arena. -/
def HandleRegistry.register (r : HandleRegistry) (h : NativeHandle) (kind : HandleKind) :
    Except Error TrackedId × HandleRegistry :=
  if r.entries.any (fun e => e.handle == h) then (.error .DuplicateHandle, r)
  else (.ok r.entries.length,
    { r with entries := r.entries ++ [{ handle := h, kind := kind, live := true }] })

/-- Modelled from the spec: `release(trackedId) -> Result<(), AlreadyReleased>`.
Releasing a live handle clears its liveness flag and invokes the native
destructor once; releasing a handle whose flag is already clear fails with
`AlreadyReleased`.  The contract has no other error, so an id the registry never
issued fails with `AlreadyReleased` too. -/
def HandleRegistry.release (r : HandleRegistry) (id : TrackedId) :
    Except Error Unit × HandleRegistry :=
  match r.entries[id]? with
  | some e =>
    if e.live then
      (.ok (), { entries := r.entries.set id { e with live := false },
                 freed := r.freed ++ [e.handle] })
    else (.error .AlreadyReleased, r)
  | none => (.error .AlreadyReleased, r)

/-- Modelled from the spec: `isLive(trackedId) -> bool`. -/
def HandleRegistry.isLive (r : HandleRegistry) (id : TrackedId) : Bool :=
  match r.entries[id]? with
  | some e => e.live
  | none => false

/-- Modelled from the spec: process-wide finalization destroys every handle, and
the registry mirrors it by clearing every liveness flag.  No native destructor
is called by the binding layer for it. -/
def HandleRegistry.drain (r : HandleRegistry) : HandleRegistry :=
  { r with entries := r.entries.map (fun e => { e with live := false }) }

/-- Modelled from the spec: the two operations of the HandleRegistry that change
it. -/
inductive RegistryOp where
  | register (h : NativeHandle) (kind : HandleKind)
  | release (id : TrackedId)
deriving DecidableEq, Repr

/-- Modelled from the spec: the registry after one operation, its result
dropped. -/
def HandleRegistry.step (r : HandleRegistry) : RegistryOp → HandleRegistry
  | .register h kind => (r.register h kind).2
  | .release id => (r.release id).2

/-- Modelled from the spec: the registry after a sequence of operations. -/
def HandleRegistry.run (r : HandleRegistry) (ops : List RegistryOp) : HandleRegistry :=
  ops.foldl HandleRegistry.step r

/-- Modelled from the spec: `compare(a, b)` of the ComparisonOracle (section
4.2).  It "requires both handles live; fails with StaleHandle otherwise" and
delegates to the runtime's `comm_compare`, given here as `comm_compare`; the raw
outcome of the runtime is one of the four codes, written as the enumerator that
`mpihs.h` gives that code. -/
def compare (comm_compare : NativeHandle → NativeHandle → ComparisonResult)
    (r : HandleRegistry) (a b : TrackedId) : Except Error ComparisonResult :=
  match r.entries[a]?, r.entries[b]? with
  | some ea, some eb =>
    if ea.live && eb.live then .ok (comm_compare ea.handle eb.handle)
    else .error .StaleHandle
  | _, _ => .error .StaleHandle

/-- Modelled from the spec: `isEquivalent(a,b)` = result ∈ {Identical,
Congruent}. -/
def isEquivalent (comm_compare : NativeHandle → NativeHandle → ComparisonResult)
    (r : HandleRegistry) (a b : TrackedId) : Except Error Bool :=
  match compare comm_compare r a b with
  | .ok res => .ok (res == .Identical || res == .Congruent)
  | .error e => .error e

/-- Modelled from the spec: `hasSameMembership(a,b)` = result ≠ Unequal. -/
def hasSameMembership (comm_compare : NativeHandle → NativeHandle → ComparisonResult)
    (r : HandleRegistry) (a b : TrackedId) : Except Error Bool :=
  match compare comm_compare r a b with
  | .ok res => .ok (res != .Unequal)
  | .error e => .error e

/-- Modelled from the spec: a PendingOperation "associates a request handle with
its originating buffer's ownership token and a completion flag". -/
structure PendingOperation where
  request : TrackedId
  buffer : OwnershipToken
  completed : Bool
deriving DecidableEq, Repr

/-- Modelled from the spec: the RequestLedger of section 4.4, the tracked
operations keyed by request. -/
structure RequestLedger where
  ops : List PendingOperation
deriving DecidableEq, Repr

/-- Modelled from the spec: the ledger of a fresh session. -/
def RequestLedger.empty : RequestLedger :=
  { ops := [] }

/-- Modelled from the spec: the record the ledger holds for a request. -/
def RequestLedger.lookup (l : RequestLedger) (request : TrackedId) :
    Option PendingOperation :=
  l.ops.find? (fun op => op.request == request)

/-- Modelled from the spec: `pendingCount() -> usize`, the number of tracked
operations whose completion flag is not set. -/
def RequestLedger.pendingCount (l : RequestLedger) : Nat :=
  (l.ops.filter (fun op => !op.completed)).length

/-- Modelled from the spec: `track(request, buffer) -> ()`.  The ledger is keyed
by request, so the new record, with its completion flag clear, takes the place
of any record the request had. -/
def RequestLedger.track (l : RequestLedger) (request : TrackedId)
    (buffer : OwnershipToken) : RequestLedger :=
  { ops := { request := request, buffer := buffer, completed := false } ::
      l.ops.filter (fun op => op.request != request) }

/-- Modelled from the spec: `complete(request)` with its optional deadline
(sections 4.4 and 5).  `wait` is the runtime's `wait(request, deadline)`, true
when the operation finished and false on expiry of the deadline.  A request the
ledger does not hold fails with `UnknownRequest`; one whose completion flag is
set fails with `AlreadyCompleted`; otherwise the runtime is waited for: on
expiry the result is `Timeout` and the operation stays tracked, not completed;
when the runtime reports the operation finished the flag is set and the buffer
token is returned. -/
def RequestLedger.complete (wait : TrackedId → Option Nat → Bool) (l : RequestLedger)
    (request : TrackedId) (deadline : Option Nat) :
    Except Error OwnershipToken × RequestLedger :=
  match l.lookup request with
  | none => (.error .UnknownRequest, l)
  | some op =>
    if op.completed then (.error .AlreadyCompleted, l)
    else if wait request deadline then
      (.ok op.buffer,
        { ops := l.ops.map (fun o =>
            if o.request == request then { o with completed := true } else o) })
    else (.error .Timeout, l)

/-- Modelled from the spec: cancellation (section 5), "only possible via a
runtime-provided cancel call that itself races with completion".
`nativeCancel` is the runtime's `cancel(request) -> bool`.  A request whose
completion was observed cannot be cancelled (`AlreadyCompleted`); when the
runtime reports that completion won the race the result is `AlreadyCompleted`
and the operation stays tracked; when the runtime cancels the operation the
ledger stops tracking it. -/
def RequestLedger.cancel (nativeCancel : TrackedId → Bool) (l : RequestLedger)
    (request : TrackedId) : Except Error Unit × RequestLedger :=
  match l.lookup request with
  | none => (.error .UnknownRequest, l)
  | some op =>
    if op.completed then (.error .AlreadyCompleted, l)
    else if nativeCancel request then
      (.ok (), { ops := l.ops.filter (fun o => o.request != request) })
    else (.error .AlreadyCompleted, l)

/-- Modelled from the spec: the operations of the RequestLedger that may change
it, each with the behaviour of the runtime at the time of the call. -/
inductive LedgerOp where
  | track (request : TrackedId) (buffer : OwnershipToken)
  | complete (wait : TrackedId → Option Nat → Bool) (request : TrackedId)
      (deadline : Option Nat)
  | cancel (nativeCancel : TrackedId → Bool) (request : TrackedId)

/-- Modelled from the spec: the ledger after one operation, its result
dropped. -/
def RequestLedger.step (l : RequestLedger) : LedgerOp → RequestLedger
  | .track request buffer => l.track request buffer
  | .complete wait request deadline => (l.complete wait request deadline).2
  | .cancel nativeCancel request => (l.cancel nativeCancel request).2

/-- Modelled from the spec: the ledger after a sequence of operations. -/
def RequestLedger.run (l : RequestLedger) (ops : List LedgerOp) : RequestLedger :=
  ops.foldl RequestLedger.step l

/-- Modelled from the spec: the state machine of the design notes,
"{Uninitialized → Initialized → Finalized}"; the initialized state records the
level the runtime granted. -/
inductive Phase where
  | Uninitialized
  | Initialized (granted : ThreadSupport)
  | Finalized
deriving DecidableEq, Repr

/-- Modelled from the spec: the single `SessionState` value of the design notes,
passed to every component. -/
structure Session where
  phase : Phase
  registry : HandleRegistry
  ledger : RequestLedger
deriving DecidableEq, Repr

/-- Modelled from the spec: the session before initialization. -/
def Session.fresh : Session :=
  { phase := .Uninitialized, registry := HandleRegistry.empty,
    ledger := RequestLedger.empty }

/-- Modelled from the spec: `initialize(requested)` of the
ThreadSupportNegotiator (section 4.3).  `init_thread` is the runtime's
`init_thread(requested) -> granted`, `none` when the runtime fails to
initialize.  In an initialized session the call fails with
`AlreadyInitialized`; in a fresh session the runtime is asked, the level it
grants is recorded and returned, and its failure is `InitFailed`.  The state
machine has no transition out of `Finalized`, so there the call fails with
`InitFailed`. -/
def Session.initializeSession (init_thread : ThreadSupport → Option ThreadSupport)
    (s : Session) (requested : ThreadSupport) : Except Error ThreadSupport × Session :=
  match s.phase with
  | .Initialized _ => (.error .AlreadyInitialized, s)
  | .Finalized => (.error .InitFailed, s)
  | .Uninitialized =>
    match init_thread requested with
    | some granted => (.ok granted, { s with phase := .Initialized granted })
    | none => (.error .InitFailed, s)

/-- Modelled from the spec: `currentLevel() -> Option<ThreadSupportLevel>`,
"none before init / after finalize". -/
def Session.currentLevel (s : Session) : Option ThreadSupport :=
  match s.phase with
  | .Initialized granted => some granted
  | _ => none

/-- Modelled from the spec: `pendingCount()` of the session's ledger. -/
def Session.pendingCount (s : Session) : Nat :=
  s.ledger.pendingCount

/-- Modelled from the spec: `finalize() -> Result<(), NotInitialized |
PendingOperationsRemain>`.  It fails with `NotInitialized` outside the
initialized state and with `PendingOperationsRemain` while the ledger holds
incomplete operations; otherwise the session becomes `Finalized` and, as the
overview says, the registry and the ledger are drained. -/
def Session.finalize (s : Session) : Except Error Unit × Session :=
  match s.phase with
  | .Initialized _ =>
    if s.pendingCount > 0 then (.error .PendingOperationsRemain, s)
    else (.ok (), { phase := .Finalized, registry := s.registry.drain,
                    ledger := RequestLedger.empty })
  | _ => (.error .NotInitialized, s)

/-- Modelled from the spec: the calls a caller can make on a session, each with
the behaviour of the runtime at the time of the call. -/
inductive SessionOp where
  | init (init_thread : ThreadSupport → Option ThreadSupport) (requested : ThreadSupport)
  | finalize
  | registry (op : RegistryOp)
  | ledger (op : LedgerOp)

/-- Modelled from the spec: the session after one call, its result dropped.  The
contracts of the registry and of the ledger name no error for an uninitialized
session, so their calls go to the component in every phase. -/
def Session.step (s : Session) : SessionOp → Session
  | .init init_thread requested => (s.initializeSession init_thread requested).2
  | .finalize => s.finalize.2
  | .registry op => { s with registry := s.registry.step op }
  | .ledger op => { s with ledger := s.ledger.step op }

/-- Modelled from the spec: the session after a sequence of calls. -/
def Session.run (s : Session) (ops : List SessionOp) : Session :=
  ops.foldl Session.step s

/-- The call is `finalize`. -/
def SessionOp.isFinalize : SessionOp → Bool
  | .finalize => true
  | _ => false

/-- Modelled from the spec: the data-model invariant on the runtime's grant,
"the level granted by initialization is always ≤ the level requested". -/
def GrantsAtMostRequested (init_thread : ThreadSupport → Option ThreadSupport) : Prop :=
  ∀ requested granted, init_thread requested = some granted → granted ≤ requested


/-- A registry with two live communicators, registered in a fresh registry under
the native handles 10 and 11; their tracked ids are 0 and 1. -/
def exampleRegistry : HandleRegistry :=
  ((HandleRegistry.empty.register 10 .communicator).2.register 11 .communicator).2

/-- A runtime whose best thread level is `Serialized`: it grants `Serialized`
when `Multiple` is requested and the requested level otherwise (the scenario of
section 8). -/
def serializedAtBest : ThreadSupport → Option ThreadSupport
  | .Multiple => some .Serialized
  | level => some level

/-- A runtime `wait` that reports the operation finished only when no deadline
is given (the slow operation of the scenario of section 8). -/
def slowWait : TrackedId → Option Nat → Bool :=
  fun _ deadline => deadline.isNone

/-- An initialized session (granted `Serialized`) with one registered request,
tracked under id 0 with buffer token 77 and not yet completed. -/
def exampleSession : Session :=
  (Session.fresh.initializeSession serializedAtBest .Multiple).2.run
    [.registry (.register 10 .request), .ledger (.track 0 77)]

/-! ## Theorems about the header -/

/-- The order on levels is the order of their positions. -/
theorem ThreadSupport.lt_iff (a b : ThreadSupport) :
    a < b ↔ a.permissiveness < b.permissiveness := Iff.rfl

/-- The order on levels is the order of their positions. -/
theorem ThreadSupport.le_iff (a b : ThreadSupport) :
    a ≤ b ↔ a.permissiveness ≤ b.permissiveness := Iff.rfl

/-- C1. With the thread-level constants of `<mpi.h>` increasing, the integer
values of the enumerators of `ThreadSupport` increase strictly in the order
Single, Funneled, Serialized, Multiple, and for every pair of levels comparing
the integer codes (less-than, equality) agrees with the permissiveness order of
the specification. -/
theorem threadSupport_codes_follow_permissiveness (k : MpiH)
    (hk : k.threadLevelsIncrease) :
    (ThreadSupport.Single.toInt k < ThreadSupport.Funneled.toInt k ∧
      ThreadSupport.Funneled.toInt k < ThreadSupport.Serialized.toInt k ∧
      ThreadSupport.Serialized.toInt k < ThreadSupport.Multiple.toInt k) ∧
    ∀ a b : ThreadSupport,
      (a.toInt k < b.toInt k ↔ a < b) ∧ (a.toInt k ≤ b.toInt k ↔ a ≤ b) ∧
      (a.toInt k = b.toInt k ↔ a = b) := by
  obtain ⟨h1, h2, h3⟩ := hk
  refine ⟨⟨h1, h2, h3⟩, ?_⟩
  intro a b
  rw [ThreadSupport.lt_iff, ThreadSupport.le_iff]
  cases a <;> cases b <;>
    simp only [ThreadSupport.toInt, ThreadSupport.permissiveness] <;>
    simp <;> omega

/-- C1, witness: MPICH's constants increase, and the statement holds for them. -/
theorem threadSupport_codes_follow_permissiveness_witness :
    MpiH.mpich.threadLevelsIncrease ∧
    ((ThreadSupport.Single.toInt MpiH.mpich < ThreadSupport.Funneled.toInt MpiH.mpich ∧
      ThreadSupport.Funneled.toInt MpiH.mpich < ThreadSupport.Serialized.toInt MpiH.mpich ∧
      ThreadSupport.Serialized.toInt MpiH.mpich < ThreadSupport.Multiple.toInt MpiH.mpich) ∧
    ∀ a b : ThreadSupport,
      (a.toInt MpiH.mpich < b.toInt MpiH.mpich ↔ a < b) ∧
      (a.toInt MpiH.mpich ≤ b.toInt MpiH.mpich ↔ a ≤ b) ∧
      (a.toInt MpiH.mpich = b.toInt MpiH.mpich ↔ a = b)) :=
  ⟨by decide, threadSupport_codes_follow_permissiveness MpiH.mpich (by decide)⟩

/-- C2. Every enumerator of `ComparisonResult` and of `ThreadSupport` has the
integer value of the native constant of the same meaning, and for each of the
eight raw codes, reading the code as an enumerator and taking the enumerator's
integer value gives the same code back.  This holds for every choice of the
constants of `<mpi.h>`. -/
theorem enumerators_carry_native_codes (k : MpiH) :
    (ComparisonResult.Identical.toInt k = k.MPI_IDENT ∧
      ComparisonResult.Congruent.toInt k = k.MPI_CONGRUENT ∧
      ComparisonResult.Similar.toInt k = k.MPI_SIMILAR ∧
      ComparisonResult.Unequal.toInt k = k.MPI_UNEQUAL) ∧
    (ThreadSupport.Single.toInt k = k.MPI_THREAD_SINGLE ∧
      ThreadSupport.Funneled.toInt k = k.MPI_THREAD_FUNNELED ∧
      ThreadSupport.Serialized.toInt k = k.MPI_THREAD_SERIALIZED ∧
      ThreadSupport.Multiple.toInt k = k.MPI_THREAD_MULTIPLE) ∧
    (∀ raw ∈ k.comparisonCodes,
      (ComparisonResult.ofInt k raw).map (ComparisonResult.toInt k) = some raw) ∧
    (∀ raw ∈ k.threadCodes,
      (ThreadSupport.ofInt k raw).map (ThreadSupport.toInt k) = some raw) := by
  refine ⟨⟨rfl, rfl, rfl, rfl⟩, ⟨rfl, rfl, rfl, rfl⟩, ?_, ?_⟩
  · intro raw hraw
    simp only [MpiH.comparisonCodes, List.mem_cons, List.mem_singleton,
      List.mem_nil_iff, or_false] at hraw
    unfold ComparisonResult.ofInt
    split_ifs with h1 h2 h3 h4
    · simp [ComparisonResult.toInt, h1]
    · simp [ComparisonResult.toInt, h2]
    · simp [ComparisonResult.toInt, h3]
    · simp [ComparisonResult.toInt, h4]
    · rcases hraw with h | h | h | h <;> contradiction
  · intro raw hraw
    simp only [MpiH.threadCodes, List.mem_cons, List.mem_singleton,
      List.mem_nil_iff, or_false] at hraw
    unfold ThreadSupport.ofInt
    split_ifs with h1 h2 h3 h4
    · simp [ThreadSupport.toInt, h1]
    · simp [ThreadSupport.toInt, h2]
    · simp [ThreadSupport.toInt, h3]
    · simp [ThreadSupport.toInt, h4]
    · rcases hraw with h | h | h | h <;> contradiction

/-- C3. `ComparisonResult` has exactly four enumerators; with the four native
constants pairwise distinct their integer values are pairwise distinct, two
different raw outcomes are never read as the same enumerator, and every
enumerator is the reading of exactly one raw outcome, namely its own value. -/
theorem comparison_codes_one_to_one (k : MpiH) (hk : k.comparisonCodesDistinct) :
    Fintype.card ComparisonResult = 4 ∧
    k.comparisonCodes.length = 4 ∧
    Function.Injective (ComparisonResult.toInt k) ∧
    (∀ r₁ ∈ k.comparisonCodes, ∀ r₂ ∈ k.comparisonCodes,
      ComparisonResult.ofInt k r₁ = ComparisonResult.ofInt k r₂ → r₁ = r₂) ∧
    (∀ e : ComparisonResult, ∃! raw, raw ∈ k.comparisonCodes ∧
      ComparisonResult.ofInt k raw = some e) ∧
    (∀ e : ComparisonResult, ComparisonResult.ofInt k (e.toInt k) = some e) := by
  simp only [MpiH.comparisonCodesDistinct, MpiH.comparisonCodes, List.nodup_cons,
    List.mem_cons, List.mem_singleton, List.not_mem_nil, not_or, or_false,
    not_false_eq_true, List.nodup_nil, and_true] at hk
  obtain ⟨⟨h12, h13, h14⟩, ⟨h23, h24⟩, h34⟩ := hk
  have hback : ∀ e : ComparisonResult, ComparisonResult.ofInt k (e.toInt k) = some e := by
    intro e
    cases e <;>
      simp [ComparisonResult.ofInt, ComparisonResult.toInt, Ne.symm h12, Ne.symm h13,
        Ne.symm h14, Ne.symm h23, Ne.symm h24, Ne.symm h34]
  have hinj : Function.Injective (ComparisonResult.toInt k) := by
    intro a b hab
    have := hback a
    rw [hab, hback b] at this
    exact (Option.some.inj this).symm
  have hfwd : ∀ raw e, ComparisonResult.ofInt k raw = some e → raw = e.toInt k := by
    intro raw e h
    unfold ComparisonResult.ofInt at h
    split_ifs at h with h1 h2 h3 h4 <;> cases h <;> assumption
  have hmem : ∀ e : ComparisonResult, e.toInt k ∈ k.comparisonCodes := by
    intro e
    cases e <;> simp [MpiH.comparisonCodes, ComparisonResult.toInt]
  have hsome : ∀ r ∈ k.comparisonCodes, ∃ e, ComparisonResult.ofInt k r = some e := by
    intro r hr
    simp only [MpiH.comparisonCodes, List.mem_cons, List.mem_singleton,
      List.mem_nil_iff, or_false] at hr
    unfold ComparisonResult.ofInt
    split_ifs with h1 h2 h3 h4
    · exact ⟨_, rfl⟩
    · exact ⟨_, rfl⟩
    · exact ⟨_, rfl⟩
    · exact ⟨_, rfl⟩
    · rcases hr with h | h | h | h <;> contradiction
  refine ⟨by decide, rfl, hinj, ?_, ?_, hback⟩
  · intro r₁ h₁ r₂ _ heq
    obtain ⟨e, he⟩ := hsome r₁ h₁
    rw [hfwd r₁ e he, hfwd r₂ e (heq ▸ he)]
  · intro e
    exact ⟨e.toInt k, ⟨hmem e, hback e⟩, fun raw h => hfwd raw e h.2⟩

/-- C3, witness: MPICH's comparison constants are pairwise distinct, and the
statement holds for them. -/
theorem comparison_codes_one_to_one_witness :
    MpiH.mpich.comparisonCodesDistinct ∧
    Function.Injective (ComparisonResult.toInt MpiH.mpich) ∧
    (∀ e : ComparisonResult, ∃! raw, raw ∈ MpiH.mpich.comparisonCodes ∧
      ComparisonResult.ofInt MpiH.mpich raw = some e) :=
  ⟨by decide,
    (comparison_codes_one_to_one MpiH.mpich (by decide)).2.2.1,
    (comparison_codes_one_to_one MpiH.mpich (by decide)).2.2.2.2.1⟩

/-- C4, as stated, fails.  With the values of MPICH's `mpi.h` (`MPI_IDENT` = 0,
`MPI_UNEQUAL` = 3) `Identical` is at least as strict as `Unequal`, yet its
integer value 0 is not greater than or equal to 3: it is not true that for every
pair x, y, x is at least as strict as y exactly when the integer value of x is
greater than or equal to that of y. -/
theorem strictness_not_integer_ge :
    ComparisonResult.Identical.atLeastAsStrict ComparisonResult.Unequal ∧
    ¬ (ComparisonResult.Identical.toInt MpiH.mpich ≥
        ComparisonResult.Unequal.toInt MpiH.mpich) ∧
    ¬ (∀ x y : ComparisonResult,
        x.atLeastAsStrict y ↔ x.toInt MpiH.mpich ≥ y.toInt MpiH.mpich) := by
  refine ⟨by decide, by decide, ?_⟩
  intro h
  exact absurd ((h ComparisonResult.Identical ComparisonResult.Unequal).1 (by decide))
    (by decide)

/-- C4, amended.  With the comparison constants of `<mpi.h>` increasing from
`MPI_IDENT` to `MPI_UNEQUAL` (as in MPICH and Open MPI), the strictness order
Identical > Congruent > Similar > Unequal is the reverse of the order of the
integer values: the values increase strictly from `Identical` to `Unequal`, and
for every pair x, y, x is at least as strict as y exactly when the integer value
of x is less than or equal to that of y. -/
theorem strictness_is_reverse_integer_order (k : MpiH)
    (hk : k.comparisonCodesIncrease) :
    (ComparisonResult.Identical.toInt k < ComparisonResult.Congruent.toInt k ∧
      ComparisonResult.Congruent.toInt k < ComparisonResult.Similar.toInt k ∧
      ComparisonResult.Similar.toInt k < ComparisonResult.Unequal.toInt k) ∧
    (∀ x y : ComparisonResult, x.atLeastAsStrict y ∨ y.atLeastAsStrict x) ∧
    ∀ x y : ComparisonResult, x.atLeastAsStrict y ↔ x.toInt k ≤ y.toInt k := by
  obtain ⟨h1, h2, h3⟩ := hk
  refine ⟨⟨h1, h2, h3⟩, ?_, ?_⟩
  · intro x y
    cases x <;> cases y <;> decide
  · intro x y
    cases x <;> cases y <;>
      simp only [ComparisonResult.atLeastAsStrict, ComparisonResult.toInt,
        ComparisonResult.strictness] <;>
      simp <;> omega

/-- C4 amended, witness: MPICH's comparison constants increase, and the
statement holds for them. -/
theorem strictness_is_reverse_integer_order_witness :
    MpiH.mpich.comparisonCodesIncrease ∧
    ∀ x y : ComparisonResult,
      x.atLeastAsStrict y ↔ x.toInt MpiH.mpich ≤ y.toInt MpiH.mpich :=
  ⟨by decide, (strictness_is_reverse_integer_order MpiH.mpich (by decide)).2.2⟩

/-! ## Theorems about the binding core -/

/-- A live id has an entry whose flag is set. -/
theorem HandleRegistry.isLive_eq_true (r : HandleRegistry) (id : TrackedId)
    (h : r.isLive id = true) : ∃ e, r.entries[id]? = some e ∧ e.live = true := by
  unfold HandleRegistry.isLive at h
  cases he : r.entries[id]? with
  | none => simp [he] at h
  | some e => exact ⟨e, rfl, by simpa [he] using h⟩

/-- On live handles `compare` returns the runtime's outcome. -/
theorem compare_of_live (cmp : NativeHandle → NativeHandle → ComparisonResult)
    (r : HandleRegistry) (a b : TrackedId)
    (ha : r.isLive a = true) (hb : r.isLive b = true) :
    ∃ res, compare cmp r a b = .ok res := by
  obtain ⟨ea, hea, la⟩ := r.isLive_eq_true a ha
  obtain ⟨eb, heb, lb⟩ := r.isLive_eq_true b hb
  exact ⟨cmp ea.handle eb.handle, by simp [compare, hea, heb, la, lb]⟩

/-- C5. For every pair of live handles a, b, `compare` returns a result, and
`isEquivalent(a,b)` is true exactly when that result is Identical or Congruent,
`hasSameMembership(a,b)` is true exactly when it is not Unequal; consequently
`isEquivalent` implies `hasSameMembership`. -/
theorem derived_queries_follow_compare
    (cmp : NativeHandle → NativeHandle → ComparisonResult)
    (r : HandleRegistry) (a b : TrackedId)
    (ha : r.isLive a = true) (hb : r.isLive b = true) :
    (∃ res, compare cmp r a b = .ok res ∧
      isEquivalent cmp r a b =
        .ok (decide (res = .Identical ∨ res = .Congruent)) ∧
      hasSameMembership cmp r a b = .ok (decide (res ≠ .Unequal))) ∧
    (isEquivalent cmp r a b = .ok true ↔
      compare cmp r a b = .ok .Identical ∨ compare cmp r a b = .ok .Congruent) ∧
    (hasSameMembership cmp r a b = .ok true ↔
      ∃ res, compare cmp r a b = .ok res ∧ res ≠ .Unequal) ∧
    (isEquivalent cmp r a b = .ok true → hasSameMembership cmp r a b = .ok true) := by
  obtain ⟨res, hres⟩ := compare_of_live cmp r a b ha hb
  refine ⟨⟨res, hres, ?_, ?_⟩, ?_, ?_, ?_⟩ <;>
    simp only [isEquivalent, hasSameMembership, hres] <;>
    cases res <;> simp

/-- C5, witness: the two handles of `exampleRegistry` are live, and with a
runtime that reports Congruent the statement holds for them. -/
theorem derived_queries_follow_compare_witness :
    exampleRegistry.isLive 0 = true ∧ exampleRegistry.isLive 1 = true ∧
    isEquivalent (fun _ _ => ComparisonResult.Congruent) exampleRegistry 0 1 = .ok true ∧
    (isEquivalent (fun _ _ => ComparisonResult.Congruent) exampleRegistry 0 1 = .ok true →
      hasSameMembership (fun _ _ => ComparisonResult.Congruent) exampleRegistry 0 1
        = .ok true) :=
  ⟨rfl, rfl, rfl,
    (derived_queries_follow_compare (fun _ _ => ComparisonResult.Congruent)
      exampleRegistry 0 1 rfl rfl).2.2.2⟩

/-- The binding returns the runtime's grant unchanged, so the level returned by
every successful `initialize` is at most the requested one exactly when the
runtime never grants more than requested. -/
theorem Session.initialize_bound_iff_runtime
    (init_thread : ThreadSupport → Option ThreadSupport) :
    (∀ (s : Session) (requested granted : ThreadSupport) (s' : Session),
      s.initializeSession init_thread requested = (.ok granted, s') →
      granted ≤ requested) ↔ GrantsAtMostRequested init_thread := by
  constructor
  · intro h requested granted hg
    exact h Session.fresh requested granted
      { Session.fresh with phase := .Initialized granted }
      (by simp [Session.initializeSession, Session.fresh, hg])
  · intro hrt s requested granted s' h
    unfold Session.initializeSession at h
    cases hp : s.phase with
    | Initialized g => simp [hp] at h
    | Finalized => simp [hp] at h
    | Uninitialized =>
      cases hg : init_thread requested with
      | none => simp [hp, hg] at h
      | some g =>
        simp only [hp, hg, Prod.mk.injEq, Except.ok.injEq] at h
        rw [← h.1]
        exact hrt requested g hg

/-- A released entry stays released through one registry operation. -/
theorem HandleRegistry.released_step (r : HandleRegistry) (id : TrackedId)
    (h : ∃ e, r.entries[id]? = some e ∧ e.live = false) (op : RegistryOp) :
    ∃ e, (r.step op).entries[id]? = some e ∧ e.live = false := by
  obtain ⟨e, he, hl⟩ := h
  have hlt : id < r.entries.length := by
    rcases Nat.lt_or_ge id r.entries.length with h | h
    · exact h
    · rw [List.getElem?_eq_none h] at he
      cases he
  cases op with
  | register nh kind =>
    simp only [HandleRegistry.step, HandleRegistry.register]
    split_ifs
    · exact ⟨e, he, hl⟩
    · exact ⟨e, by simp [List.getElem?_append_left hlt, he], hl⟩
  | release id' =>
    simp only [HandleRegistry.step, HandleRegistry.release]
    cases he' : r.entries[id']? with
    | none => exact ⟨e, he, hl⟩
    | some e' =>
      by_cases hlive : e'.live = true
      · simp only [hlive, if_true]
        by_cases hid : id' = id
        · subst hid
          rw [he] at he'
          cases he'
          rw [hl] at hlive
          cases hlive
        · exact ⟨e, by simp [List.getElem?_set_ne hid, he], hl⟩
      · simp only [hlive]
        exact ⟨e, he, hl⟩

/-- A released entry stays released through any sequence of registry
operations. -/
theorem HandleRegistry.released_run (ops : List RegistryOp) (r : HandleRegistry)
    (id : TrackedId) (h : ∃ e, r.entries[id]? = some e ∧ e.live = false) :
    ∃ e, (r.run ops).entries[id]? = some e ∧ e.live = false := by
  induction ops generalizing r with
  | nil => exact h
  | cons op ops ih => exact ih (r.step op) (r.released_step id h op)

/-- A successful release leaves the entry with its flag clear. -/
theorem HandleRegistry.released_of_release (r r' : HandleRegistry) (id : TrackedId)
    (h : r.release id = (.ok (), r')) :
    ∃ e, r'.entries[id]? = some e ∧ e.live = false := by
  unfold HandleRegistry.release at h
  cases he : r.entries[id]? with
  | none => simp [he] at h
  | some e =>
    have hlt : id < r.entries.length := by
      rcases Nat.lt_or_ge id r.entries.length with h | h
      · exact h
      · rw [List.getElem?_eq_none h] at he
        cases he
    by_cases hlive : e.live = true
    · simp only [he, hlive, if_true, Prod.mk.injEq, true_and] at h
      subst h
      exact ⟨{ e with live := false }, by simp [hlt], rfl⟩
    · simp [he, hlive] at h

/-- C7. Releasing a handle a second time fails with `AlreadyReleased`: after a
successful `release(trackedId)`, whatever registrations and releases follow,
every later `release(trackedId)` returns the error `AlreadyReleased`, leaves the
registry (and the log of destructor calls) as it was, and `isLive(trackedId)` is
false. -/
theorem release_twice_fails (r r' : HandleRegistry) (id : TrackedId)
    (h : r.release id = (.ok (), r')) (ops : List RegistryOp) :
    (r'.run ops).release id = (.error .AlreadyReleased, r'.run ops) ∧
    (r'.run ops).isLive id = false := by
  obtain ⟨e, he, hl⟩ := HandleRegistry.released_run ops r' id
    (HandleRegistry.released_of_release r r' id h)
  constructor
  · simp [HandleRegistry.release, he, hl]
  · simp [HandleRegistry.isLive, he, hl]

/-- C7, witness: in `exampleRegistry` the first release of handle 0 succeeds and
calls the destructor of native handle 10; after a further registration and a
release of handle 1, releasing handle 0 again fails with `AlreadyReleased`. -/
theorem release_twice_fails_witness :
    (exampleRegistry.release 0).1 = .ok () ∧
    (exampleRegistry.release 0).2.freed = [10] ∧
    (((exampleRegistry.release 0).2.run
        [.register 12 .group, .release 1]).release 0).1 = .error .AlreadyReleased ∧
    ((exampleRegistry.release 0).2.run [.register 12 .group, .release 1]).isLive 0
      = false :=
  ⟨rfl, rfl,
    congrArg Prod.fst (release_twice_fails exampleRegistry (exampleRegistry.release 0).2 0 rfl
      [.register 12 .group, .release 1]).1,
    (release_twice_fails exampleRegistry (exampleRegistry.release 0).2 0 rfl
      [.register 12 .group, .release 1]).2⟩

/-- A call other than `finalize` keeps an initialized session initialized, with
the same granted level. -/
theorem Session.initialized_step (s : Session) (g : ThreadSupport)
    (h : s.phase = .Initialized g) (op : SessionOp) (hop : op.isFinalize = false) :
    (s.step op).phase = .Initialized g := by
  cases op with
  | init rt requested => simp [Session.step, Session.initializeSession, h]
  | finalize => simp [SessionOp.isFinalize] at hop
  | registry op => simpa [Session.step] using h
  | ledger op => simpa [Session.step] using h

/-- Calls other than `finalize` keep an initialized session initialized, with
the same granted level. -/
theorem Session.initialized_run (ops : List SessionOp) (s : Session) (g : ThreadSupport)
    (h : s.phase = .Initialized g) (hops : ∀ op ∈ ops, op.isFinalize = false) :
    (s.run ops).phase = .Initialized g := by
  induction ops generalizing s with
  | nil => exact h
  | cons op ops ih =>
    exact ih (s.step op)
      (s.initialized_step g h op (hops op (List.mem_cons_self op ops)))
      (fun o ho => hops o (List.mem_cons_of_mem op ho))

/-- A successful `initialize` leaves the session initialized with the level it
returned. -/
theorem Session.initialized_of_ok (rt : ThreadSupport → Option ThreadSupport)
    (s s' : Session) (requested granted : ThreadSupport)
    (h : s.initializeSession rt requested = (.ok granted, s')) :
    s'.phase = .Initialized granted := by
  unfold Session.initializeSession at h
  cases hp : s.phase with
  | Initialized g => simp [hp] at h
  | Finalized => simp [hp] at h
  | Uninitialized =>
    cases hg : rt requested with
    | none => simp [hp, hg] at h
    | some g =>
      simp only [hp, hg, Prod.mk.injEq, Except.ok.injEq] at h
      obtain ⟨h1, h2⟩ := h
      subst h1
      subst h2
      rfl

/-- C8. Initialization is a one-time transition: for every pair of requested
levels, after a successful `initialize`, whatever calls other than `finalize`
follow, a second `initialize` fails with `AlreadyInitialized`, whatever the
runtime would answer, and the failed call leaves the session, and so its
granted level, unchanged. -/
theorem second_initialize_fails (rt₁ rt₂ : ThreadSupport → Option ThreadSupport)
    (s s₁ : Session) (requested₁ requested₂ granted : ThreadSupport)
    (h : s.initializeSession rt₁ requested₁ = (.ok granted, s₁))
    (ops : List SessionOp) (hops : ∀ op ∈ ops, op.isFinalize = false) :
    (s₁.run ops).initializeSession rt₂ requested₂ =
      (.error .AlreadyInitialized, s₁.run ops) ∧
    (s₁.run ops).currentLevel = some granted ∧
    ((s₁.run ops).initializeSession rt₂ requested₂).2.currentLevel = some granted := by
  have hp := Session.initialized_run ops s₁ granted
    (Session.initialized_of_ok rt₁ s s₁ requested₁ granted h) hops
  have h1 : (s₁.run ops).initializeSession rt₂ requested₂ =
      (.error .AlreadyInitialized, s₁.run ops) := by
    simp [Session.initializeSession, hp]
  refine ⟨h1, ?_, ?_⟩
  · simp [Session.currentLevel, hp]
  · rw [h1]
    simp [Session.currentLevel, hp]

/-- C8, witness: in a fresh session `initialize(Multiple)` is granted
`Serialized`; after registering a handle and tracking a request, a second
`initialize(Single)` fails with `AlreadyInitialized` and the granted level is
still `Serialized`. -/
theorem second_initialize_fails_witness :
    (Session.fresh.initializeSession serializedAtBest .Multiple).1 = .ok .Serialized ∧
    (((Session.fresh.initializeSession serializedAtBest .Multiple).2.run
        [.registry (.register 10 .request), .ledger (.track 0 77)]).initializeSession
        serializedAtBest .Single).1 = .error .AlreadyInitialized ∧
    (((Session.fresh.initializeSession serializedAtBest .Multiple).2.run
        [.registry (.register 10 .request), .ledger (.track 0 77)]).initializeSession
        serializedAtBest .Single).2.currentLevel = some .Serialized :=
  ⟨rfl,
    congrArg Prod.fst (second_initialize_fails serializedAtBest serializedAtBest
      Session.fresh _ .Multiple .Single .Serialized rfl
      [.registry (.register 10 .request), .ledger (.track 0 77)]
      (by intro op hop; simp at hop; rcases hop with h | h <;> subst h <;> rfl)).1,
    (second_initialize_fails serializedAtBest serializedAtBest
      Session.fresh _ .Multiple .Single .Serialized rfl
      [.registry (.register 10 .request), .ledger (.track 0 77)]
      (by intro op hop; simp at hop; rcases hop with h | h <;> subst h <;> rfl)).2.2⟩

/-- Nothing is pending exactly when every tracked record is completed. -/
theorem RequestLedger.pendingCount_eq_zero_iff (l : RequestLedger) :
    l.pendingCount = 0 ↔ ∀ op ∈ l.ops, op.completed = true := by
  simp [RequestLedger.pendingCount, List.filter_eq_nil_iff]

/-- C9. In every initialized session state, `finalize` fails with
`PendingOperationsRemain` (and changes nothing) whenever `pendingCount() > 0`,
and succeeds, ending the session, when `pendingCount() = 0`, which is the case
exactly when every operation the ledger still tracks has been completed; an
operation that was cancelled is no longer tracked, and one that was completed
has its flag set, so neither is counted. -/
theorem finalize_gated_on_pending (s : Session) (g : ThreadSupport)
    (hs : s.phase = .Initialized g) :
    (0 < s.pendingCount → s.finalize = (.error .PendingOperationsRemain, s)) ∧
    (s.pendingCount = 0 →
      s.finalize.1 = .ok () ∧ s.finalize.2.phase = .Finalized ∧
      s.finalize.2.currentLevel = none) ∧
    (s.pendingCount = 0 ↔ ∀ op ∈ s.ledger.ops, op.completed = true) ∧
    (∀ nativeCancel request l', s.ledger.cancel nativeCancel request = (.ok (), l') →
      ∀ op ∈ l'.ops, op.request ≠ request) ∧
    (∀ wait request deadline token l',
      s.ledger.complete wait request deadline = (.ok token, l') →
      ∀ op ∈ l'.ops, op.request = request → op.completed = true) := by
  refine ⟨?_, ?_, s.ledger.pendingCount_eq_zero_iff, ?_, ?_⟩
  · intro h
    simp [Session.finalize, hs, h]
  · intro h
    simp [Session.finalize, hs, h, Session.currentLevel]
  · intro nativeCancel request l' h op hop
    unfold RequestLedger.cancel at h
    cases hl : s.ledger.lookup request with
    | none => simp [hl] at h
    | some o =>
      simp only [hl] at h
      split_ifs at h with h1 h2
      · simp at h
      · simp only [Prod.mk.injEq, true_and] at h
        subst h
        simpa using (List.mem_filter.1 hop).2
      · simp at h
  · intro wait request deadline token l' h op hop hreq
    unfold RequestLedger.complete at h
    cases hl : s.ledger.lookup request with
    | none => simp [hl] at h
    | some o =>
      simp only [hl] at h
      split_ifs at h with h1 h2
      · simp at h
      · simp only [Prod.mk.injEq, Except.ok.injEq] at h
        obtain ⟨_, h⟩ := h
        subst h
        simp only [List.mem_map] at hop
        obtain ⟨o', _, ho'⟩ := hop
        by_cases hr : o'.request = request
        · simp only [hr, beq_self_eq_true, if_true] at ho'
          subst ho'
          rfl
        · have hb : (o'.request == request) = false := by simpa using hr
          simp only [hb] at ho'
          subst ho'
          exact absurd hreq hr
      · simp at h

/-- C9, witness: `exampleSession` is initialized with one pending operation, so
`finalize` fails with `PendingOperationsRemain`; once the operation is completed
the pending count is 0 and `finalize` succeeds. -/
theorem finalize_gated_on_pending_witness :
    exampleSession.phase = .Initialized .Serialized ∧
    0 < exampleSession.pendingCount ∧
    exampleSession.finalize = (.error .PendingOperationsRemain, exampleSession) ∧
    (exampleSession.step (.ledger (.complete slowWait 0 none))).pendingCount = 0 ∧
    (exampleSession.step (.ledger (.complete slowWait 0 none))).finalize.1 = .ok () :=
  ⟨rfl, by decide,
    (finalize_gated_on_pending exampleSession .Serialized rfl).1 (by decide),
    by decide,
    ((finalize_gated_on_pending (exampleSession.step (.ledger (.complete slowWait 0 none)))
      .Serialized rfl).2.1 (by decide)).1⟩

end MpiHs
